import Mathlib

/-!
Verification of the `collector` package of collectd-docker (monitor.go).

Go strings are modelled as lists of characters (`Str`).  The docker client
is an external capability: `InspectContainer`'s outcome is passed to
`NewMonitor` as an `Except` value, and the blocking `client.Stats` call of
`Monitor.handle` is modelled by a `StatsCallResult` record holding the
samples the call delivers to the internal channel before it returns, and
its returned error value.  The goroutine consuming the internal channel is
modelled by the pure function `monitorWorker`, whose output list is the
sequence of labeled samples sent to the output channel, in order; a Go
runtime fault (modulo by zero) inside the worker is modelled by `none`.
-/

abbrev Str := List Char

/-- External type docker.Stats: one raw statistics snapshot, treated as a
token read from the runtime and never inspected by this package. -/
structure DockerStats where
  raw : Nat
deriving DecidableEq

/-- Go errors are modelled by their message strings. -/
abbrev GoError := Str

/-- Output record of the collector (type `Stats` of this repository, not in
monitor.go).  Modelled from the spec: LabeledSample = \x7bapp, task,
stats: RawSample\x7d, fields named as the source uses them
(`Stats{App: ..., Task: ..., Stats: *s}`). -/
structure Stats where
  App : Str
  Task : Str
  Stats : DockerStats
deriving DecidableEq

/-- Field `Config` of docker.Container: the fields consulted by monitor.go. -/
structure ContainerConfig where
  Env : List Str
  Image : Str

/-- External type docker.Container as consumed by monitor.go: raw ID plus
the config fields read during identity resolution. -/
structure Container where
  ID : Str
  Config : ContainerConfig

/-- sanitizeForGraphite: strings.Replace(strings.Replace(s, ".", "_", -1),
"/", "_", -1).  Both patterns are single characters, so each Replace with
count -1 is a character map. -/
def sanitizeForGraphite (s : Str) : Str :=
  (s.map fun c => if c = '.' then '_' else c).map fun c => if c = '/' then '_' else c

/-- extractEnv: scans c.Config.Env for the first entry with the given
"VAR=" leading part and returns the rest of that entry, else "". -/
def extractEnv (c : Container) (envVar : Str) : Str :=
  match c.Config.Env.find? (fun e => List.isPrefixOf (envVar ++ [ '=' ]) e) with
  | some e => e.drop (envVar ++ [ '=' ]).length
  | none => []

/-- strings.TrimPrefix(app, "/"): removes one leading slash if present. -/
def trimLeadSlash : Str → Str
  | '/' :: r => r
  | s => s

/-! The regular expression `.*\/([^\/]*):.*` of monitor.go, compiled with
regexp.MustCompile, is embedded as an explicit pattern (a sequence of
atoms) together with a backtracking matcher implementing Go's
leftmost-first match semantics: the match begins as early as possible in
the input, and among matches at that position it is the one a backtracking
search would find first (greedy stars).  `.` matches any character except
a newline; a negated class such as `[^/]` also matches a newline. -/

inductive RE where
  | lit : Char → RE
  | star : (Char → Bool) → RE

def starLoop (ok : Char → Bool) (k : List Char → Option Nat) : List Char → Option Nat
  | [] => k []
  | c :: l =>
    if ok c then
      match starLoop ok k l with
      | some n => some (n + 1)
      | none => k (c :: l)
    else k (c :: l)

def matchSeq : List RE → List Char → Option Nat
  | [], _ => some 0
  | RE.lit _ :: _, [] => none
  | RE.lit c :: ps, x :: l =>
    if x = c then (matchSeq ps l).map (· + 1) else none
  | RE.star ok :: ps, l => starLoop ok (matchSeq ps) l

/-- Leftmost match: try the pattern at every start position from the left
and return the matched substring (regexp.FindStringSubmatch result index
0), or none when the pattern matches nowhere. -/
def findMatch (p : List RE) : List Char → Option (List Char)
  | [] =>
    match matchSeq p [] with
    | some _ => some []
    | none => none
  | c :: l =>
    match matchSeq p (c :: l) with
    | some n => some ((c :: l).take n)
    | none => findMatch p l

def notNL (c : Char) : Bool := c ≠ '\n'

def notSlash (c : Char) : Bool := c ≠ '/'

/-- imageNameRegex = regexp.MustCompile of dot-star, slash, non-slash-star,
colon, dot-star. -/
def imageNamePattern : List RE :=
  [RE.star notNL, RE.lit '/', RE.star notSlash, RE.lit ':', RE.star notNL]

/-- imageNameRegex.FindStringSubmatch(s) index 0 (the full match), none when
the regexp does not match. -/
def imageNameFind (s : Str) : Option Str := findMatch imageNamePattern s

/-- extractApp: CHRONOS_JOB_NAME, else MARATHON_APP_ID with one leading
slash trimmed, else the full regexp match on the image reference, else "". -/
def extractApp (c : Container) : Str :=
  let app := extractEnv c ("CHRONOS_JOB_NAME".toList)
  if app ≠ [] then app
  else
    let app2 := extractEnv c ("MARATHON_APP_ID".toList)
    if app2 ≠ [] then trimLeadSlash app2
    else
      match imageNameFind c.Config.Image with
      | none => []
      | some m => m

/-- The Monitor record; the docker client handle is not part of the pure
state (it is supplied to `Monitor.handle` as the stats-call outcome). -/
structure Monitor where
  id : Str
  app : Str
  task : Str
  interval : Int
deriving DecidableEq

/-- Outcome of NewMonitor: a monitor, a propagated inspection error, the
distinguished ErrNoNeedToMonitor sentinel, or the Go runtime panic raised
by the slice expression container.ID[:8] when the ID is shorter than 8. -/
inductive NewMonitorResult where
  | ok : Monitor → NewMonitorResult
  | errResult : GoError → NewMonitorResult
  | errNoNeedToMonitor : NewMonitorResult
  | panicSliceBounds : NewMonitorResult
deriving DecidableEq

/-- NewMonitor: inspect the container (propagating the error verbatim),
sanitize the extracted app, decline on empty app, then build the task from
the first 8 characters of the canonical ID.  The slice container.ID[:8]
is evaluated only after the empty-app early return; it panics when the ID
has fewer than 8 characters. -/
def NewMonitor (inspectResult : Except GoError Container) (interval : Int) :
    NewMonitorResult :=
  match inspectResult with
  | Except.error e => NewMonitorResult.errResult e
  | Except.ok container =>
    let app := sanitizeForGraphite (extractApp container)
    if app = [] then NewMonitorResult.errNoNeedToMonitor
    else if container.ID.length < 8 then NewMonitorResult.panicSliceBounds
    else NewMonitorResult.ok
      { id := container.ID
        app := app
        task := sanitizeForGraphite (container.ID.take 8)
        interval := interval }

/-- Go's % on int (truncated remainder), with the runtime fault on a zero
divisor modelled as none. -/
def goMod (a b : Int) : Option Int :=
  if b = 0 then none else some (a.tmod b)

/-- The goroutine body of Monitor.handle: counter i starts at 0; samples
with i % interval != 0 are discarded, the rest are labeled and sent; the
counter increments once per raw sample either way.  A modulo-by-zero fault
aborts the worker (none). -/
def monitorWorker (m : Monitor) : List DockerStats → Int → Option (List Stats)
  | [], _ => some []
  | s :: rest, i =>
    match goMod i m.interval with
    | none => none
    | some r =>
      if r ≠ 0 then monitorWorker m rest (i + 1)
      else (monitorWorker m rest (i + 1)).map
        (fun out => { App := m.app, Task := m.task, Stats := s } :: out)

/-- Outcome of the blocking m.client.Stats call: the raw samples it
delivers to the internal channel before returning, and its returned error
value (none models a nil error: the stream closed normally). -/
structure StatsCallResult where
  delivered : List DockerStats
  err : Option GoError

/-- Monitor.handle: spawns the worker on the internal channel and returns
the client.Stats error verbatim.  The first component is the sequence the
worker sends to the output channel (none on a worker fault); the second is
handle's return value. -/
def Monitor.handle (m : Monitor) (call : StatsCallResult) :
    Option (List Stats) × Option GoError :=
  (monitorWorker m call.delivered 0, call.err)

/-! Semantic characterization of the image-name pattern, used to state
claims about non-matching image references: the regexp matches a string
iff it contains a slash followed by a colon with no slash in between. -/

/-- True when the list contains a colon before any slash. -/
def colonBeforeSlash : List Char → Bool
  | [] => false
  | c :: l => if c = ':' then true else if c = '/' then false else colonBeforeSlash l

/-- True when the list contains a slash later followed by a colon with no
slash strictly between them. -/
def hasTagSep : List Char → Bool
  | [] => false
  | c :: l => (decide (c = '/') && colonBeforeSlash l) || hasTagSep l

/-! Helper lemmas about sanitization. -/

/-- The two nested single-character Replace calls compose into one map. -/
theorem sanitizeForGraphite_eq_map (s : Str) :
    sanitizeForGraphite s =
      s.map (fun c => if c = '.' then '_' else if c = '/' then '_' else c) := by
  simp only [sanitizeForGraphite, List.map_map]
  apply List.map_congr_left
  intro c _
  by_cases h1 : c = '.'
  · simp [h1, Function.comp]
  · by_cases h2 : c = '/' <;> simp [h1, h2, Function.comp]

theorem sanitizeForGraphite_nil_iff (s : Str) :
    sanitizeForGraphite s = [] ↔ s = [] := by
  rw [sanitizeForGraphite_eq_map]
  simp

/-! Claims about sanitization and construction. -/

/-- C4: sanitize is total over all strings, its output contains no dot and
no slash, and it is idempotent. -/
theorem c4_sanitize_total_idempotent (s : Str) :
    ('.' ∉ sanitizeForGraphite s ∧ '/' ∉ sanitizeForGraphite s) ∧
      sanitizeForGraphite (sanitizeForGraphite s) = sanitizeForGraphite s := by
  rw [sanitizeForGraphite_eq_map, sanitizeForGraphite_eq_map, List.map_map]
  refine ⟨⟨?_, ?_⟩, ?_⟩
  · intro hmem
    rcases List.mem_map.1 hmem with ⟨c, _, hc⟩
    by_cases h1 : c = '.' <;> by_cases h2 : c = '/' <;> simp [h1, h2] at hc
  · intro hmem
    rcases List.mem_map.1 hmem with ⟨c, _, hc⟩
    by_cases h1 : c = '.' <;> by_cases h2 : c = '/' <;> simp [h1, h2] at hc
  · apply List.map_congr_left
    intro c _
    by_cases h1 : c = '.'
    · simp [h1, Function.comp]
    · by_cases h2 : c = '/' <;> simp [h1, h2, Function.comp]

/-- C9: a successfully constructed Monitor has a non-empty app label. -/
theorem c9_app_nonempty (c : Container) (i : Int) (m : Monitor)
    (h : NewMonitor (Except.ok c) i = NewMonitorResult.ok m) : m.app ≠ [] := by
  by_cases happ : sanitizeForGraphite (extractApp c) = []
  · simp [NewMonitor, happ] at h
  · by_cases hlen : c.ID.length < 8
    · simp [NewMonitor, happ, hlen] at h
    · simp [NewMonitor, happ, hlen] at h
      rw [← h]
      exact happ

/-- Witness for C9 at a concrete container. -/
theorem c9_witness :
    NewMonitor (Except.ok
        { ID := "abcdef1234567890".toList
          Config := { Env := ["CHRONOS_JOB_NAME=job".toList], Image := "img".toList } }) 3 =
      NewMonitorResult.ok
        { id := "abcdef1234567890".toList, app := "job".toList,
          task := "abcdef12".toList, interval := 3 } ∧
    ({ id := "abcdef1234567890".toList, app := "job".toList,
       task := "abcdef12".toList, interval := 3 } : Monitor).app ≠ [] :=
  ⟨by decide,
    c9_app_nonempty
      { ID := "abcdef1234567890".toList
        Config := { Env := ["CHRONOS_JOB_NAME=job".toList], Image := "img".toList } } 3
      { id := "abcdef1234567890".toList, app := "job".toList,
        task := "abcdef12".toList, interval := 3 } (by decide)⟩

/-- The three mutually exclusive sources of the raw app label. -/
theorem extractApp_chronos (c : Container)
    (h : extractEnv c ("CHRONOS_JOB_NAME".toList) ≠ []) :
    extractApp c = extractEnv c ("CHRONOS_JOB_NAME".toList) := by
  simp only [extractApp, ne_eq, h, not_false_eq_true, if_true]

theorem extractApp_marathon (c : Container)
    (h1 : extractEnv c ("CHRONOS_JOB_NAME".toList) = [])
    (h2 : extractEnv c ("MARATHON_APP_ID".toList) ≠ []) :
    extractApp c = trimLeadSlash (extractEnv c ("MARATHON_APP_ID".toList)) := by
  simp only [extractApp, ne_eq, h1, not_true_eq_false, if_false, h2,
    not_false_eq_true, if_true]

theorem extractApp_image (c : Container)
    (h1 : extractEnv c ("CHRONOS_JOB_NAME".toList) = [])
    (h2 : extractEnv c ("MARATHON_APP_ID".toList) = []) :
    extractApp c = (imageNameFind c.Config.Image).getD [] := by
  simp only [extractApp, ne_eq, h1, h2, not_true_eq_false, if_false]
  cases imageNameFind c.Config.Image <;> simp

/-- C8: the task identifier of every successfully constructed Monitor is
the sanitized first 8 characters of the raw container ID; for container ID
abcdef1234567890 the task is abcdef12. -/
theorem c8_task_first8 (c : Container) (i : Int) (m : Monitor)
    (h : NewMonitor (Except.ok c) i = NewMonitorResult.ok m) :
    m.task = sanitizeForGraphite (c.ID.take 8) ∧
      (c.ID = "abcdef1234567890".toList → m.task = "abcdef12".toList) := by
  by_cases happ : sanitizeForGraphite (extractApp c) = []
  · simp [NewMonitor, happ] at h
  · by_cases hlen : c.ID.length < 8
    · simp [NewMonitor, happ, hlen] at h
    · simp [NewMonitor, happ, hlen] at h
      have htask : m.task = sanitizeForGraphite (c.ID.take 8) := by
        rw [← h]
      refine ⟨htask, fun hid => ?_⟩
      rw [htask, hid]
      decide

/-- Witness for C8 at a concrete container. -/
theorem c8_witness :
    NewMonitor (Except.ok
        { ID := "abcdef1234567890".toList
          Config := { Env := ["CHRONOS_JOB_NAME=job".toList], Image := "img".toList } }) 3 =
      NewMonitorResult.ok
        { id := "abcdef1234567890".toList, app := "job".toList,
          task := "abcdef12".toList, interval := 3 } ∧
    ({ id := "abcdef1234567890".toList, app := "job".toList,
       task := "abcdef12".toList, interval := 3 } : Monitor).task = "abcdef12".toList :=
  ⟨by decide,
    (c8_task_first8
      { ID := "abcdef1234567890".toList
        Config := { Env := ["CHRONOS_JOB_NAME=job".toList], Image := "img".toList } } 3
      { id := "abcdef1234567890".toList, app := "job".toList,
        task := "abcdef12".toList, interval := 3 } (by decide)).2 (by decide)⟩

/-- C5: construction yields the distinguished ErrNoNeedToMonitor sentinel
(and no Monitor) exactly when the sanitized app label is empty; in
particular when no environment label is set and the image reference does
not match the regexp. -/
theorem c5_decline_iff (c : Container) (i : Int) :
    (NewMonitor (Except.ok c) i = NewMonitorResult.errNoNeedToMonitor ↔
      sanitizeForGraphite (extractApp c) = []) ∧
    (extractEnv c ("CHRONOS_JOB_NAME".toList) = [] →
      extractEnv c ("MARATHON_APP_ID".toList) = [] →
      imageNameFind c.Config.Image = none →
      NewMonitor (Except.ok c) i = NewMonitorResult.errNoNeedToMonitor) := by
  constructor
  · by_cases happ : sanitizeForGraphite (extractApp c) = []
    · simp [NewMonitor, happ]
    · by_cases hlen : c.ID.length < 8 <;> simp [NewMonitor, happ, hlen]
  · intro h1 h2 h3
    have happ : extractApp c = [] := by
      rw [extractApp_image c h1 h2, h3]
      rfl
    simp [NewMonitor, happ, sanitizeForGraphite]

/-- Witness for C5 at a concrete container with no labels and a
non-matching image reference. -/
theorem c5_witness :
    NewMonitor (Except.ok
        { ID := "abcdef1234567890".toList
          Config := { Env := [], Image := "busybox".toList } }) 1 =
      NewMonitorResult.errNoNeedToMonitor :=
  (c5_decline_iff
    { ID := "abcdef1234567890".toList
      Config := { Env := [], Image := "busybox".toList } } 1).2
    (by decide) (by decide) (by decide)

/-- C3: identity precedence: a non-empty CHRONOS_JOB_NAME wins over
everything else; with it absent, a non-empty MARATHON_APP_ID is used with
exactly one leading slash stripped, so /group/service sanitizes to
group_service. -/
theorem c3_precedence :
    (∀ c : Container, extractEnv c ("CHRONOS_JOB_NAME".toList) ≠ [] →
      extractApp c = extractEnv c ("CHRONOS_JOB_NAME".toList)) ∧
    (∀ c : Container, extractEnv c ("CHRONOS_JOB_NAME".toList) = [] →
      extractEnv c ("MARATHON_APP_ID".toList) ≠ [] →
      extractApp c = trimLeadSlash (extractEnv c ("MARATHON_APP_ID".toList))) ∧
    sanitizeForGraphite (extractApp
      { ID := "abcdef1234567890".toList
        Config := { Env := ["MARATHON_APP_ID=/group/service".toList],
                    Image := "img".toList } }) = "group_service".toList := by
  refine ⟨?_, ?_, by decide⟩
  · intro c h
    exact extractApp_chronos c h
  · intro c h1 h2
    exact extractApp_marathon c h1 h2

/-- Witness for C3: with both environment labels present, the app label is
the CHRONOS_JOB_NAME value. -/
theorem c3_witness :
    extractApp
      { ID := "abcdef1234567890".toList
        Config := { Env := ["CHRONOS_JOB_NAME=job".toList,
                            "MARATHON_APP_ID=/group/service".toList],
                    Image := "img".toList } } = "job".toList := by
  have h := c3_precedence.1
    { ID := "abcdef1234567890".toList
      Config := { Env := ["CHRONOS_JOB_NAME=job".toList,
                          "MARATHON_APP_ID=/group/service".toList],
                  Image := "img".toList } } (by decide)
  rw [h]
  decide

/-- The worker with a positive interval n and counter at k forwards exactly
the samples whose absolute index is divisible by n. -/
theorem monitorWorker_stride (m : Monitor) (n : Nat) (hn : 0 < n)
    (hm : m.interval = (n : Int)) :
    ∀ (l : List DockerStats) (k : Nat),
      monitorWorker m l (k : Int) =
        some (((l.enumFrom k).filter fun p => decide (p.1 % n = 0)).map
          fun p => { App := m.app, Task := m.task, Stats := p.2 }) := by
  intro l
  induction l with
  | nil => intro k; simp [monitorWorker]
  | cons s rest ih =>
    intro k
    have hne : (n : Int) ≠ 0 := by
      exact_mod_cast Nat.pos_iff_ne_zero.mp hn
    have hmod : goMod (k : Int) m.interval = some ((k % n : Nat) : Int) := by
      simp [goMod, hm, hne, ← Int.ofNat_tmod]
    have hcast : ((k : Int) + 1) = ((k + 1 : Nat) : Int) := by push_cast; ring
    by_cases hk : k % n = 0
    · simp only [monitorWorker, hmod, hcast, ih (k + 1), List.enumFrom, hk]
      simp [hk]
    · have : ((k % n : Nat) : Int) ≠ 0 := by
        exact_mod_cast hk
      simp only [monitorWorker, hmod, hcast, ih (k + 1), List.enumFrom]
      simp [hk, this]
      rw [Int.natCast_dvd_natCast]
      intro hd
      exact hk (Nat.dvd_iff_mod_eq_zero.mp hd)

/-- C1: with a positive interval n, handle forwards exactly the raw
samples at indices 0, n, 2n, ... in arrival order, labeled with the
monitor's app and task; the counter advances once per raw sample. -/
theorem c1_downsampling (m : Monitor) (n : Nat) (call : StatsCallResult)
    (hm : m.interval = (n : Int)) (hn : 0 < n) :
    (m.handle call).1 =
      some (((call.delivered.enum).filter fun p => decide (p.1 % n = 0)).map
        fun p => { App := m.app, Task := m.task, Stats := p.2 }) := by
  have h := monitorWorker_stride m n hn hm call.delivered 0
  simpa [Monitor.handle, List.enum] using h

/-- Witness for C1: five samples with interval 3 forward exactly the
samples at indices 0 and 3. -/
theorem c1_witness :
    0 < 3 ∧
    (({ id := [], app := ['a'], task := ['t'], interval := (3 : Int) } : Monitor).handle
        { delivered := [⟨0⟩, ⟨1⟩, ⟨2⟩, ⟨3⟩, ⟨4⟩], err := none }).1 =
      some [{ App := ['a'], Task := ['t'], Stats := ⟨0⟩ },
            { App := ['a'], Task := ['t'], Stats := ⟨3⟩ }] := by
  refine ⟨by decide, ?_⟩
  have h := c1_downsampling { id := [], app := ['a'], task := ['t'], interval := (3 : Int) } 3
    { delivered := [⟨0⟩, ⟨1⟩, ⟨2⟩, ⟨3⟩, ⟨4⟩], err := none } rfl (by decide)
  rw [h]
  decide

/-- C7: handle returns the error value of the blocking client.Stats call
verbatim; when the call reports a normally closed stream (nil error) the
result carries no error, and the worker contributes no error of its own. -/
theorem c7_stream_error_verbatim :
    (∀ (m : Monitor) (call : StatsCallResult), (m.handle call).2 = call.err) ∧
    (∀ (m : Monitor) (delivered : List DockerStats),
      (m.handle { delivered := delivered, err := none }).2 = none) :=
  ⟨fun _ _ => rfl, fun _ _ => rfl⟩

/-- With a nonzero interval the worker never faults. -/
theorem monitorWorker_total (m : Monitor) (h : m.interval ≠ 0) :
    ∀ (l : List DockerStats) (i : Int), (monitorWorker m l i).isSome := by
  intro l
  induction l with
  | nil => intro i; simp [monitorWorker]
  | cons s rest ih =>
    intro i
    simp only [monitorWorker, goMod, h, if_false]
    by_cases hr : Int.tmod i m.interval ≠ 0 <;> simp [hr, ih]

/-- C6 counterexample: construction happily accepts interval 0 and the
sampling loop then faults on the very first sample. -/
theorem c6_counterexample :
    NewMonitor (Except.ok
        { ID := "abcdef1234567890".toList
          Config := { Env := ["CHRONOS_JOB_NAME=job".toList], Image := "img".toList } }) 0 =
      NewMonitorResult.ok
        { id := "abcdef1234567890".toList, app := "job".toList,
          task := "abcdef12".toList, interval := 0 } ∧
    monitorWorker
      { id := "abcdef1234567890".toList, app := "job".toList,
        task := "abcdef12".toList, interval := 0 } [⟨0⟩] 0 = none := by
  decide

/-- C6 amended: construction applies no interval policy (the interval is
stored as given); interval 0 makes the loop fault at the first sample,
while any nonzero (hence any negative) interval never faults. -/
theorem c6_no_interval_policy :
    (∀ (c : Container) (i : Int) (m : Monitor),
      NewMonitor (Except.ok c) i = NewMonitorResult.ok m → m.interval = i) ∧
    (∀ (m : Monitor) (s : DockerStats) (rest : List DockerStats),
      m.interval = 0 → monitorWorker m (s :: rest) 0 = none) ∧
    (∀ (m : Monitor) (l : List DockerStats),
      m.interval ≠ 0 → (monitorWorker m l 0).isSome) := by
  refine ⟨?_, ?_, ?_⟩
  · intro c i m h
    by_cases happ : sanitizeForGraphite (extractApp c) = []
    · simp [NewMonitor, happ] at h
    · by_cases hlen : c.ID.length < 8
      · simp [NewMonitor, happ, hlen] at h
      · simp [NewMonitor, happ, hlen] at h
        rw [← h]
  · intro m s rest h
    simp [monitorWorker, goMod, h]
  · intro m l h
    exact monitorWorker_total m h l 0

/-- Witness for C6 amended: a zero interval faults on one sample and a
negative interval does not. -/
theorem c6_witness :
    monitorWorker { id := [], app := ['a'], task := ['t'], interval := 0 } [⟨0⟩] 0 = none ∧
    (monitorWorker { id := [], app := ['a'], task := ['t'], interval := -3 }
      [⟨0⟩, ⟨1⟩, ⟨2⟩] 0).isSome :=
  ⟨c6_no_interval_policy.2.1 { id := [], app := ['a'], task := ['t'], interval := 0 } ⟨0⟩ [] rfl,
   c6_no_interval_policy.2.2 { id := [], app := ['a'], task := ['t'], interval := -3 }
     [⟨0⟩, ⟨1⟩, ⟨2⟩] (by decide)⟩

/-- C10 counterexample: a container whose ID is shorter than 8 characters
but whose identity resolution declines is returned as the decline
sentinel, not as a runtime fault. -/
theorem c10_counterexample :
    ("abc".toList).length < 8 ∧
    NewMonitor (Except.ok
        { ID := "abc".toList, Config := { Env := [], Image := "img".toList } }) 1 =
      NewMonitorResult.errNoNeedToMonitor ∧
    NewMonitor (Except.ok
        { ID := "abc".toList, Config := { Env := [], Image := "img".toList } }) 1 ≠
      NewMonitorResult.panicSliceBounds := by
  decide

/-- C10 amended: the slice container.ID[:8] faults exactly when identity
resolution produced a non-empty app and the canonical ID has fewer than 8
characters; on decline the sentinel is returned before the slice. -/
theorem c10_short_id_panic (c : Container) (i : Int) :
    NewMonitor (Except.ok c) i = NewMonitorResult.panicSliceBounds ↔
      (sanitizeForGraphite (extractApp c) ≠ [] ∧ c.ID.length < 8) := by
  by_cases happ : sanitizeForGraphite (extractApp c) = [] <;>
    by_cases hlen : c.ID.length < 8 <;>
      simp [NewMonitor, happ, hlen]

/-- Witness for C10 amended: a short-ID container with a CHRONOS label
faults at construction. -/
theorem c10_witness :
    NewMonitor (Except.ok
        { ID := "abc".toList
          Config := { Env := ["CHRONOS_JOB_NAME=job".toList], Image := "img".toList } }) 1 =
      NewMonitorResult.panicSliceBounds :=
  (c10_short_id_panic
    { ID := "abc".toList
      Config := { Env := ["CHRONOS_JOB_NAME=job".toList], Image := "img".toList } } 1).mpr
    ⟨by decide, by decide⟩

/-! Characterization of the matcher: the pattern matches somewhere in a
string iff the string contains a slash later followed by a colon with no
slash strictly between them. -/

theorem starLoop_isSome_of_k (ok : Char → Bool) (k : List Char → Option Nat)
    (l : List Char) (h : (k l).isSome) : (starLoop ok k l).isSome := by
  induction l with
  | nil => simpa [starLoop] using h
  | cons c l ih =>
    cases hc : ok c with
    | false => simpa [starLoop, hc] using h
    | true =>
      cases hs : starLoop ok k l with
      | some n => simp [starLoop, hc, hs]
      | none => simpa [starLoop, hc, hs] using h

theorem starLoop_isSome_append (ok : Char → Bool) (k : List Char → Option Nat)
    (a b : List Char) (ha : ∀ x ∈ a, ok x = true) (h : (k b).isSome) :
    (starLoop ok k (a ++ b)).isSome := by
  induction a with
  | nil => exact starLoop_isSome_of_k ok k b h
  | cons c a ih =>
    have hc : ok c = true := ha c (by simp)
    have hin : (starLoop ok k (a ++ b)).isSome := ih (fun x hx => ha x (by simp [hx]))
    cases hs : starLoop ok k (a ++ b) with
    | some n => simp [starLoop, hc, hs]
    | none => rw [hs] at hin; simp at hin

theorem starLoop_isSome_inv (ok : Char → Bool) (k : List Char → Option Nat) :
    ∀ l, (starLoop ok k l).isSome →
      ∃ a b, l = a ++ b ∧ (∀ x ∈ a, ok x = true) ∧ (k b).isSome := by
  intro l
  induction l with
  | nil =>
    intro h
    exact ⟨[], [], rfl, by simp, by simpa [starLoop] using h⟩
  | cons c l ih =>
    intro h
    cases hc : ok c with
    | false =>
      exact ⟨[], c :: l, rfl, by simp, by simpa [starLoop, hc] using h⟩
    | true =>
      cases hs : starLoop ok k l with
      | some n =>
        rcases ih (by simp [hs]) with ⟨a, b, habl, ha, hk⟩
        refine ⟨c :: a, b, by simp [habl], ?_, hk⟩
        intro x hx
        rcases List.mem_cons.mp hx with rfl | hx
        · exact hc
        · exact ha x hx
      | none =>
        exact ⟨[], c :: l, rfl, by simp, by simpa [starLoop, hc, hs] using h⟩

theorem matchSeq_tailStar_total (l : List Char) :
    (matchSeq [RE.star notNL] l).isSome := by
  have h : (starLoop notNL (matchSeq []) l).isSome :=
    starLoop_isSome_of_k notNL (matchSeq []) l (by simp [matchSeq])
  simpa [matchSeq] using h

theorem starLoop_const_total (ok : Char → Bool) (l : List Char) :
    (starLoop ok (fun _ => some 0) l).isSome :=
  starLoop_isSome_of_k ok (fun _ => some 0) l (by simp)

theorem matchSeq_colon_iff (l : List Char) :
    (matchSeq [RE.lit ':', RE.star notNL] l).isSome ↔ ∃ d, l = ':' :: d := by
  cases l with
  | nil => simp [matchSeq]
  | cons x d =>
    by_cases hx : x = ':'
    · subst hx
      simp [matchSeq, starLoop_const_total]
    · simp [matchSeq, hx]

theorem matchSeq_nsColon_iff (l : List Char) :
    (matchSeq [RE.star notSlash, RE.lit ':', RE.star notNL] l).isSome ↔
      ∃ cc d, l = cc ++ ':' :: d ∧ (∀ x ∈ cc, notSlash x = true) := by
  constructor
  · intro h
    have h2 : (starLoop notSlash (matchSeq [RE.lit ':', RE.star notNL]) l).isSome := by
      simpa [matchSeq] using h
    rcases starLoop_isSome_inv _ _ l h2 with ⟨a, b, rfl, ha, hk⟩
    rcases (matchSeq_colon_iff b).mp hk with ⟨d, rfl⟩
    exact ⟨a, d, rfl, ha⟩
  · rintro ⟨cc, d, rfl, hcc⟩
    have hk : (matchSeq [RE.lit ':', RE.star notNL] (':' :: d)).isSome :=
      (matchSeq_colon_iff _).mpr ⟨d, rfl⟩
    have h2 := starLoop_isSome_append notSlash _ cc (':' :: d) hcc hk
    simpa [matchSeq] using h2

theorem matchSeq_image_iff (l : List Char) :
    (matchSeq imageNamePattern l).isSome ↔
      ∃ a t, l = a ++ '/' :: t ∧ (∀ x ∈ a, notNL x = true) ∧
        (matchSeq [RE.star notSlash, RE.lit ':', RE.star notNL] t).isSome := by
  constructor
  · intro h
    have h2 : (starLoop notNL
        (matchSeq [RE.lit '/', RE.star notSlash, RE.lit ':', RE.star notNL]) l).isSome := by
      simpa [imageNamePattern, matchSeq] using h
    rcases starLoop_isSome_inv _ _ l h2 with ⟨a, b, rfl, ha, hk⟩
    cases b with
    | nil => simp [matchSeq] at hk
    | cons x t =>
      by_cases hx : x = '/'
      · subst hx
        refine ⟨a, t, rfl, ha, ?_⟩
        simpa [matchSeq] using hk
      · simp [matchSeq, hx] at hk
  · rintro ⟨a, t, rfl, ha, ht⟩
    have hk : (matchSeq [RE.lit '/', RE.star notSlash, RE.lit ':', RE.star notNL]
        ('/' :: t)).isSome := by
      simpa [matchSeq] using ht
    have h2 := starLoop_isSome_append notNL _ a ('/' :: t) ha hk
    simpa [imageNamePattern, matchSeq] using h2

theorem findMatch_cons (p : List RE) (c : Char) (l : List Char) :
    (findMatch p (c :: l)).isSome ↔
      (matchSeq p (c :: l)).isSome ∨ (findMatch p l).isSome := by
  cases hm : matchSeq p (c :: l) <;> simp [findMatch, hm]

theorem findMatch_isSome_iff (p : List RE) (l : List Char) :
    (findMatch p l).isSome ↔ ∃ a b, l = a ++ b ∧ (matchSeq p b).isSome := by
  induction l with
  | nil =>
    have hbase : (findMatch p []).isSome ↔ (matchSeq p []).isSome := by
      cases hm : matchSeq p [] <;> simp [findMatch, hm]
    rw [hbase]
    constructor
    · intro h
      exact ⟨[], [], rfl, h⟩
    · rintro ⟨a, b, hab, h⟩
      rcases List.append_eq_nil.mp hab.symm with ⟨rfl, rfl⟩
      exact h
  | cons c l ih =>
    rw [findMatch_cons]
    constructor
    · rintro (h | h)
      · exact ⟨[], c :: l, rfl, h⟩
      · rcases ih.mp h with ⟨a, b, rfl, hb⟩
        exact ⟨c :: a, b, rfl, hb⟩
    · rintro ⟨a, b, hab, hb⟩
      cases a with
      | nil =>
        rw [List.nil_append] at hab
        rw [hab]
        exact Or.inl hb
      | cons a0 a2 =>
        rw [List.cons_append] at hab
        injection hab with h1 h2
        exact Or.inr (ih.mpr ⟨a2, b, h2, hb⟩)

theorem colonBeforeSlash_iff (l : List Char) :
    colonBeforeSlash l = true ↔
      ∃ cc d, l = cc ++ ':' :: d ∧ (∀ x ∈ cc, notSlash x = true) := by
  induction l with
  | nil =>
    constructor
    · intro h; simp [colonBeforeSlash] at h
    · rintro ⟨cc, d, hab, _⟩
      cases cc <;> simp at hab
  | cons c l ih =>
    by_cases hcolon : c = ':'
    · subst hcolon
      simp only [colonBeforeSlash, if_true]
      constructor
      · intro _
        exact ⟨[], l, rfl, by simp⟩
      · intro _
        trivial
    · by_cases hslash : c = '/'
      · subst hslash
        simp only [colonBeforeSlash, if_neg (by decide : ¬('/' : Char) = ':'), if_true]
        constructor
        · intro h; simp at h
        · rintro ⟨cc, d, hab, hcc⟩
          cases cc with
          | nil => simp at hab
          | cons c0 cc2 =>
            rw [List.cons_append] at hab
            injection hab with h1 h2
            have := hcc c0 (by simp)
            rw [← h1] at this
            simp [notSlash] at this
      · simp only [colonBeforeSlash, if_neg hcolon, if_neg hslash]
        rw [ih]
        constructor
        · rintro ⟨cc, d, rfl, hcc⟩
          refine ⟨c :: cc, d, rfl, ?_⟩
          intro x hx
          rcases List.mem_cons.mp hx with rfl | hx
          · simp [notSlash, hslash]
          · exact hcc x hx
        · rintro ⟨cc, d, hab, hcc⟩
          cases cc with
          | nil =>
            rw [List.nil_append] at hab
            injection hab with h1 h2
            exact absurd h1 hcolon
          | cons c0 cc2 =>
            rw [List.cons_append] at hab
            injection hab with h1 h2
            exact ⟨cc2, d, h2, fun x hx => hcc x (by simp [hx])⟩

theorem hasTagSep_iff (l : List Char) :
    hasTagSep l = true ↔
      ∃ x cc d, l = x ++ '/' :: (cc ++ ':' :: d) ∧ (∀ y ∈ cc, notSlash y = true) := by
  induction l with
  | nil =>
    constructor
    · intro h; simp [hasTagSep] at h
    · rintro ⟨x, cc, d, hab, _⟩
      cases x <;> simp at hab
  | cons c l ih =>
    simp only [hasTagSep, Bool.or_eq_true, Bool.and_eq_true, decide_eq_true_eq]
    constructor
    · rintro (⟨rfl, hcbs⟩ | h)
      · rcases (colonBeforeSlash_iff l).mp hcbs with ⟨cc, d, rfl, hcc⟩
        exact ⟨[], cc, d, rfl, hcc⟩
      · rcases ih.mp h with ⟨x, cc, d, rfl, hcc⟩
        exact ⟨c :: x, cc, d, rfl, hcc⟩
    · rintro ⟨x, cc, d, hab, hcc⟩
      cases x with
      | nil =>
        rw [List.nil_append] at hab
        injection hab with h1 h2
        exact Or.inl ⟨h1, (colonBeforeSlash_iff l).mpr ⟨cc, d, h2, hcc⟩⟩
      | cons x0 x2 =>
        rw [List.cons_append] at hab
        injection hab with h1 h2
        exact Or.inr (ih.mpr ⟨x2, cc, d, h2, hcc⟩)

theorem imageNameFind_isSome_iff (s : Str) :
    (imageNameFind s).isSome ↔ hasTagSep s = true := by
  rw [imageNameFind, findMatch_isSome_iff, hasTagSep_iff]
  constructor
  · rintro ⟨a, b, rfl, hb⟩
    rcases (matchSeq_image_iff b).mp hb with ⟨a2, t, rfl, ha2, ht⟩
    rcases (matchSeq_nsColon_iff t).mp ht with ⟨cc, d, rfl, hcc⟩
    exact ⟨a ++ a2, cc, d, by simp, hcc⟩
  · rintro ⟨x, cc, d, rfl, hcc⟩
    refine ⟨x, '/' :: (cc ++ ':' :: d), rfl, ?_⟩
    apply (matchSeq_image_iff _).mpr
    exact ⟨[], cc ++ ':' :: d, rfl, by simp,
      (matchSeq_nsColon_iff _).mpr ⟨cc, d, rfl, hcc⟩⟩

theorem imageNameFind_none_iff (s : Str) :
    imageNameFind s = none ↔ hasTagSep s = false := by
  rw [← Option.not_isSome_iff_eq_none, imageNameFind_isSome_iff]
  cases hasTagSep s <;> simp

/-- C2: with no environment label set, the app label is the full matched
text of the image-name regexp (empty when the regexp does not match, which
happens exactly when the image reference has no slash-then-colon pair);
on registry.example.com/myapp:1.2 the sanitized app label is
registry_example_com_myapp:1_2. -/
theorem c2_image_fallback :
    (∀ c : Container,
      extractEnv c ("CHRONOS_JOB_NAME".toList) = [] →
      extractEnv c ("MARATHON_APP_ID".toList) = [] →
        extractApp c = (imageNameFind c.Config.Image).getD [] ∧
        (hasTagSep c.Config.Image = false → extractApp c = [])) ∧
    sanitizeForGraphite (extractApp
      { ID := "abcdef1234567890".toList
        Config := { Env := [], Image := "registry.example.com/myapp:1.2".toList } }) =
      "registry_example_com_myapp:1_2".toList := by
  constructor
  · intro c h1 h2
    have he := extractApp_image c h1 h2
    refine ⟨he, fun hno => ?_⟩
    rw [he, (imageNameFind_none_iff _).mpr hno]
    rfl
  · decide

/-- Witness for C2: an image reference with no slash-colon pair yields an
empty app label. -/
theorem c2_witness :
    extractApp
      { ID := "abcdef1234567890".toList
        Config := { Env := [], Image := "busybox".toList } } = [] :=
  (c2_image_fallback.1
    { ID := "abcdef1234567890".toList
      Config := { Env := [], Image := "busybox".toList } }
    (by decide) (by decide)).2 (by decide)
